import Mathlib

/-!
Shallow embedding of the numeric core of the tclembedding repository.

Two components are modelled, each translated from its C source:

* `cosine_similarity` / `calculate_cosine` from src/src/rag_optimizations.c,
  the MySQL UDF computing cosine similarity between two float32 blobs.
  A blob argument is modelled as an optional base address into a
  float-indexed memory `mem : Nat → ℚ` together with its declared byte
  length (mirroring `args->args[i]` / `args->lengths[i]`); a NULL data
  pointer is `none`.  Pointer identity (the `a == b` shortcut in
  `calculate_cosine`) is equality of base addresses.  Float arithmetic is
  idealised as exact rational arithmetic; the three SIMD tiers (AVX2,
  SSE4.1, scalar) accumulate the same three sums and agree exactly under
  this idealisation, so one definition covers the selector and all tiers.
  The square roots in the final quotient are kept symbolic: the computed
  result is the triple (dot, ma2, mb2) and `CosVal.hasVal` gives its real
  value `dot / (sqrt ma2 * sqrt mb2)`.

* `TclEmbedding_Compute` from src/generic/tclembedding.c, the mean-pooling
  and L2-normalisation pipeline of `TclEmbedding_Compute_Cmd`.  The ONNX
  output tensor is the caller-supplied flat activation buffer
  `floats : Nat → ℚ` indexed by `t * dim + i`; the fallible external steps
  (tensor creation, inference, allocation) are folded into a single `ok`
  flag, all of which run only after the `token_count == 0` early return.
  The emitted Tcl list of doubles is characterised by `outputIs`, which
  keeps the `sqrt` of the norm symbolic over ℝ.
-/

/-- FLT_MIN, the smallest normalised float32, 2^-126: the near-zero floor
used by every tier of the similarity routine (`ma2 <= FLT_MIN`). -/
def fltMin : ℚ := 1 / 2 ^ 126

/-- Sum of `f 0 + f 1 + ... + f (n-1)`: the common value of the sequential
scalar loop and of the lane-wise SIMD accumulations followed by a
horizontal reduction, which coincide under exact arithmetic. -/
def floatSum (f : Nat → ℚ) (n : Nat) : ℚ :=
  ((List.range n).map f).sum

/-- The fused accumulation `dot += a[i] * b[i]` of the similarity loops,
reading operands at base addresses `p` and `q` of memory `mem`. -/
def dotAcc (mem : Nat → ℚ) (p q n : Nat) : ℚ :=
  floatSum (fun i => mem (p + i) * mem (q + i)) n

/-- Squared magnitude of the operand at base address `p` over its first
`n` elements (the `ma2` / `mb2` accumulators). -/
def sumSq (mem : Nat → ℚ) (p n : Nat) : ℚ :=
  dotAcc mem p p n

/-- Structural result of `calculate_cosine`: the identity shortcut `1.0f`,
the degenerate-vector `0.0f`, or the quotient `dot / (sqrtf ma2 * sqrtf mb2)`
kept symbolically as its three accumulated sums. -/
inductive CosVal where
  | one : CosVal
  | zero : CosVal
  | frac (dot ma2 mb2 : ℚ) : CosVal
deriving DecidableEq

/-- The real number a `CosVal` denotes. -/
def CosVal.hasVal : CosVal → ℝ → Prop
  | .one, x => x = 1
  | .zero, x => x = 0
  | .frac d m1 m2, x => x = (d : ℝ) / (Real.sqrt (m1 : ℝ) * Real.sqrt (m2 : ℝ))

/-- `calculate_cosine` from rag_optimizations.c: pointer-identity shortcut,
then the fused three-sum pass (any tier), the `FLT_MIN` degenerate check,
and the final quotient. -/
def calculate_cosine (mem : Nat → ℚ) (p q n : Nat) : CosVal :=
  if p = q then .one
  else
    if dotAcc mem p p n ≤ fltMin ∨ dotAcc mem q q n ≤ fltMin then .zero
    else .frac (dotAcc mem p q n) (dotAcc mem p p n) (dotAcc mem q q n)

/-- One UDF string argument: `args->args[i]` (a possibly NULL base address
into float-indexed memory) and `args->lengths[i]` (declared byte length,
present even when the data pointer is NULL). -/
structure UdfArg where
  data : Option Nat
  bytes : Nat
deriving DecidableEq

/-- Outcome of the `cosine_similarity` UDF call: `*is_null = 1` (value 0.0),
`*error = 1` (value 0.0), or a computed value. -/
inductive CosOutcome where
  | nullResult : CosOutcome
  | alignError : CosOutcome
  | value (v : CosVal) : CosOutcome
deriving DecidableEq

/-- Two UDF outcomes agree as (value, null flag, error flag): same flags,
and when both are computed values they denote the same real number. -/
def CosOutcome.sameResult : CosOutcome → CosOutcome → Prop
  | .nullResult, .nullResult => True
  | .alignError, .alignError => True
  | .value v, .value w => ∃ x : ℝ, v.hasVal x ∧ w.hasVal x
  | _, _ => False

/-- `cosine_similarity` from rag_optimizations.c: NULL-argument check first
(null result), then the `% sizeof(float)` alignment validation (error),
then `n = min(n1, n2)` with `n <= 0` yielding a null result, else the
computed cosine over the common prefix. -/
def cosine_similarity (mem : Nat → ℚ) (a0 a1 : UdfArg) : CosOutcome :=
  match a0.data, a1.data with
  | some p0, some p1 =>
      if a0.bytes % 4 ≠ 0 ∨ a1.bytes % 4 ≠ 0 then .alignError
      else if min (a0.bytes / 4) (a1.bytes / 4) = 0 then .nullResult
      else .value (calculate_cosine mem p0 p1 (min (a0.bytes / 4) (a1.bytes / 4)))
  | _, _ => .nullResult

/-- The `sum_vec` accumulator of `TclEmbedding_Compute_Cmd` after the
summing loop over the first `tokens` rows: `sum_vec[i] += floats[t*dim+i]`
starting from the calloc zero initialisation. -/
def sum_vec (floats : Nat → ℚ) (dim : Nat) : Nat → Nat → ℚ
  | 0, _ => 0
  | t + 1, i => sum_vec floats dim t i + floats (t * dim + i)

/-- The pooled vector after the averaging loop: `sum_vec[i] /= token_count`
for each feature index below `dim`. -/
def pooledList (floats : Nat → ℚ) (dim tokens : Nat) : List ℚ :=
  (List.range dim).map (fun i => sum_vec floats dim tokens i / (tokens : ℚ))

/-- The `norm` accumulator before the square root: the sum of the squared
pooled components. -/
def normSq (floats : Nat → ℚ) (dim tokens : Nat) : ℚ :=
  ((pooledList floats dim tokens).map (fun x => x * x)).sum

/-- Result of the compute command: a TCL_ERROR from a fallible external
step (ONNX tensor creation, inference, allocation), the empty-list early
return for `token_count == 0`, or the pooled vector with its squared norm
(the emitted doubles are characterised by `outputIs`). -/
inductive ComputeResult where
  | err : ComputeResult
  | emptyList : ComputeResult
  | embedding (pooled : List ℚ) (ns : ℚ) : ComputeResult
deriving DecidableEq

/-- `TclEmbedding_Compute_Cmd` from tclembedding.c, numeric core: the
`token_count == 0` early return precedes every fallible external step
(modelled by the single flag `ok`); otherwise mean pooling and the norm
accumulation run over the activation buffer. -/
def TclEmbedding_Compute (ok : Bool) (floats : Nat → ℚ) (dim tokens : Nat) :
    ComputeResult :=
  if tokens = 0 then .emptyList
  else if ok then .embedding (pooledList floats dim tokens) (normSq floats dim tokens)
  else .err

/-- The list of doubles the command leaves as the Tcl result:
`norm = sqrt(norm); if (norm < 1e-9) norm = 1e-9;` then each pooled
component divided by that norm.  An error outcome leaves no list. -/
def outputIs : ComputeResult → List ℝ → Prop
  | .err, _ => False
  | .emptyList, out => out = ([] : List ℝ)
  | .embedding p ns, out =>
      (Real.sqrt (ns : ℝ) < 1e-9 ∧ out = p.map (fun x : ℚ => (x : ℝ) / 1e-9)) ∨
      (¬ Real.sqrt (ns : ℝ) < 1e-9 ∧
        out = p.map (fun x : ℚ => (x : ℝ) / Real.sqrt (ns : ℝ)))

/-- The 1-token, dim = 3 activation matrix [[3, 4, 0]] of the spec's
worked aggregator example, as a flat buffer. -/
def demoFloats : Nat → ℚ :=
  fun n => if n = 0 then 3 else if n = 1 then 4 else 0

theorem floatSum_succ (f : Nat → ℚ) (n : Nat) :
    floatSum f (n + 1) = floatSum f n + f n := by
  simp [floatSum, List.range_succ]

theorem floatSum_congr (f g : Nat → ℚ) (n : Nat)
    (h : ∀ i, i < n → f i = g i) : floatSum f n = floatSum g n := by
  induction n with
  | zero => rfl
  | succ n ih =>
      rw [floatSum_succ, floatSum_succ, ih (fun i hi => h i (Nat.lt_succ_of_lt hi)),
        h n (Nat.lt_succ_self n)]

theorem floatSum_nonneg (f : Nat → ℚ) (n : Nat) (h : ∀ i, 0 ≤ f i) :
    0 ≤ floatSum f n := by
  induction n with
  | zero => exact le_refl 0
  | succ n ih => rw [floatSum_succ]; exact add_nonneg ih (h n)

theorem dotAcc_symm (mem : Nat → ℚ) (p q n : Nat) :
    dotAcc mem p q n = dotAcc mem q p n :=
  floatSum_congr _ _ n (fun _ _ => mul_comm _ _)

theorem sumSq_nonneg (mem : Nat → ℚ) (p n : Nat) : 0 ≤ sumSq mem p n :=
  floatSum_nonneg _ n (fun _ => mul_self_nonneg _)

theorem dotAcc_congr (mem mem2 : Nat → ℚ) (p q n : Nat)
    (hp : ∀ i, i < n → mem2 (p + i) = mem (p + i))
    (hq : ∀ i, i < n → mem2 (q + i) = mem (q + i)) :
    dotAcc mem2 p q n = dotAcc mem p q n :=
  floatSum_congr _ _ n (fun i hi => by rw [hp i hi, hq i hi])

theorem calculate_cosine_of_ne (mem : Nat → ℚ) (p q n : Nat) (h : p ≠ q) :
    calculate_cosine mem p q n =
      if dotAcc mem p p n ≤ fltMin ∨ dotAcc mem q q n ≤ fltMin then .zero
      else .frac (dotAcc mem p q n) (dotAcc mem p p n) (dotAcc mem q q n) := by
  simp [calculate_cosine, h]

theorem cosine_similarity_some_eq (mem : Nat → ℚ) (p0 p1 b0 b1 : Nat) :
    cosine_similarity mem ⟨some p0, b0⟩ ⟨some p1, b1⟩ =
      if b0 % 4 ≠ 0 ∨ b1 % 4 ≠ 0 then .alignError
      else if min (b0 / 4) (b1 / 4) = 0 then .nullResult
      else .value (calculate_cosine mem p0 p1 (min (b0 / 4) (b1 / 4))) := rfl

theorem calculate_cosine_congr (mem mem2 : Nat → ℚ) (p q n : Nat)
    (hp : ∀ i, i < n → mem2 (p + i) = mem (p + i))
    (hq : ∀ i, i < n → mem2 (q + i) = mem (q + i)) :
    calculate_cosine mem2 p q n = calculate_cosine mem p q n := by
  by_cases hpq : p = q
  · simp [calculate_cosine, hpq]
  · rw [calculate_cosine_of_ne _ _ _ _ hpq, calculate_cosine_of_ne _ _ _ _ hpq,
      dotAcc_congr mem mem2 p q n hp hq, dotAcc_congr mem mem2 p p n hp hp,
      dotAcc_congr mem mem2 q q n hq hq]

theorem fltMin_pos : 0 < fltMin := by norm_num [fltMin]

theorem sum_vec_eq_floatSum (floats : Nat → ℚ) (dim tokens i : Nat) :
    sum_vec floats dim tokens i = floatSum (fun t => floats (t * dim + i)) tokens := by
  induction tokens with
  | zero => rfl
  | succ t ih => rw [sum_vec, floatSum_succ, ih]

/-- All-zero memory: a zero vector at every base address. -/
def zeroMem : Nat → ℚ := fun _ => 0

/-- Constant-3 memory: equal nonzero vectors at every base address. -/
def threeMem : Nat → ℚ := fun _ => 3

theorem sumSq_zeroMem (p n : Nat) : sumSq zeroMem p n = 0 := by
  simp only [sumSq, dotAcc]
  induction n with
  | zero => rfl
  | succ n ih => rw [floatSum_succ, ih]; simp [zeroMem]

theorem sumSq_threeMem (p n : Nat) : sumSq threeMem p n = 9 * n := by
  simp only [sumSq, dotAcc]
  induction n with
  | zero => simp [floatSum]
  | succ n ih => rw [floatSum_succ, ih]; simp [threeMem]; ring

/-- Claim C3: `cosine_similarity` raises the error flag exactly when at
least one present operand's declared byte length is not a whole multiple
of 4 bytes; an unaligned length is never turned into a computed value or
a null result. -/
theorem cosine_alignment_iff (mem : Nat → ℚ) (p0 p1 b0 b1 : Nat) :
    cosine_similarity mem ⟨some p0, b0⟩ ⟨some p1, b1⟩ = CosOutcome.alignError ↔
      (b0 % 4 ≠ 0 ∨ b1 % 4 ≠ 0) := by
  rw [cosine_similarity_some_eq]
  by_cases hc : b0 % 4 ≠ 0 ∨ b1 % 4 ≠ 0
  · simp [hc]
  · simp only [hc, if_false, iff_false]
    split <;> simp

/-- Claim C8: with both operands present and aligned, a reconciled common
length of zero yields the null outcome, which is neither an error nor a
computed value. -/
theorem cosine_empty_null (mem : Nat → ℚ) (p0 p1 b0 b1 : Nat)
    (h40 : b0 % 4 = 0) (h41 : b1 % 4 = 0) (hn : min (b0 / 4) (b1 / 4) = 0) :
    cosine_similarity mem ⟨some p0, b0⟩ ⟨some p1, b1⟩ = CosOutcome.nullResult ∧
    CosOutcome.nullResult ≠ CosOutcome.alignError ∧
    ∀ v, CosOutcome.nullResult ≠ CosOutcome.value v := by
  refine ⟨?_, by simp, fun v => by simp⟩
  rw [cosine_similarity_some_eq]
  simp [h40, h41, hn]

theorem cosine_empty_null_witness :
    (0 : Nat) % 4 = 0 ∧ 4 % 4 = 0 ∧ min (0 / 4) (4 / 4) = 0 ∧
    cosine_similarity zeroMem ⟨some 0, 0⟩ ⟨some 7, 4⟩ = CosOutcome.nullResult :=
  ⟨by decide, by decide, by decide,
    (cosine_empty_null zeroMem 0 7 0 4 (by decide) (by decide) (by decide)).1⟩

/-- Claim C9: the Aggregator called with zero tokens returns the empty
Tcl list as a successful result (the early return precedes every fallible
external step), not an error. -/
theorem compute_empty_tokens_ok (ok : Bool) (floats : Nat → ℚ) (dim : Nat) :
    TclEmbedding_Compute ok floats dim 0 = ComputeResult.emptyList ∧
    ComputeResult.emptyList ≠ ComputeResult.err ∧
    outputIs ComputeResult.emptyList ([] : List ℝ) :=
  ⟨rfl, by simp, rfl⟩

/-- Claim C10: an absent (NULL) operand produces the null outcome before
any alignment or length validation, for any declared lengths on either
side, so it never produces an alignment error. -/
theorem cosine_null_operand_first (mem : Nat → ℚ) (b0 : Nat) (a0 a1 : UdfArg) :
    cosine_similarity mem ⟨none, b0⟩ a1 = CosOutcome.nullResult ∧
    cosine_similarity mem a0 ⟨none, b0⟩ = CosOutcome.nullResult ∧
    cosine_similarity mem ⟨none, b0⟩ a1 ≠ CosOutcome.alignError ∧
    cosine_similarity mem a0 ⟨none, b0⟩ ≠ CosOutcome.alignError := by
  obtain ⟨d0, c0⟩ := a0
  obtain ⟨d1, c1⟩ := a1
  have h1 : cosine_similarity mem ⟨none, b0⟩ ⟨d1, c1⟩ = CosOutcome.nullResult := rfl
  have h2 : cosine_similarity mem ⟨d0, c0⟩ ⟨none, b0⟩ = CosOutcome.nullResult := by
    cases d0 <;> rfl
  exact ⟨h1, h2, by rw [h1]; simp, by rw [h2]; simp⟩

/-- Claim C7: the UDF outcome is symmetric in its two operands: both calls
set the same flags, and when both compute a value the two values denote
the same real number. -/
theorem cosine_similarity_symm (mem : Nat → ℚ) (a0 a1 : UdfArg) :
    CosOutcome.sameResult (cosine_similarity mem a0 a1)
      (cosine_similarity mem a1 a0) := by
  obtain ⟨d0, b0⟩ := a0
  obtain ⟨d1, b1⟩ := a1
  cases d0 with
  | none => cases d1 <;> exact True.intro
  | some p0 =>
    cases d1 with
    | none => exact True.intro
    | some p1 =>
      rw [cosine_similarity_some_eq, cosine_similarity_some_eq]
      by_cases h0 : b0 % 4 = 0
      · by_cases h1 : b1 % 4 = 0
        · rw [if_neg (show ¬(b0 % 4 ≠ 0 ∨ b1 % 4 ≠ 0) by simp [h0, h1]),
            if_neg (show ¬(b1 % 4 ≠ 0 ∨ b0 % 4 ≠ 0) by simp [h0, h1]),
            Nat.min_comm (b1 / 4) (b0 / 4)]
          by_cases hn : min (b0 / 4) (b1 / 4) = 0
          · rw [if_pos hn, if_pos hn]
            exact True.intro
          · rw [if_neg hn, if_neg hn]
            simp only [CosOutcome.sameResult]
            by_cases hpq : p0 = p1
            · subst hpq
              exact ⟨1, by simp [calculate_cosine, CosVal.hasVal],
                by simp [calculate_cosine, CosVal.hasVal]⟩
            · rw [calculate_cosine_of_ne _ _ _ _ hpq,
                calculate_cosine_of_ne _ _ _ _ (Ne.symm hpq)]
              by_cases hdeg : dotAcc mem p0 p0 (min (b0 / 4) (b1 / 4)) ≤ fltMin ∨
                  dotAcc mem p1 p1 (min (b0 / 4) (b1 / 4)) ≤ fltMin
              · rw [if_pos hdeg, if_pos hdeg.symm]
                exact ⟨0, rfl, rfl⟩
              · rw [if_neg hdeg, if_neg (fun h => hdeg h.symm)]
                refine ⟨_, rfl, ?_⟩
                simp only [CosVal.hasVal]
                rw [dotAcc_symm mem p1 p0]
                ring
        · rw [if_pos (Or.inr h1), if_pos (Or.inl h1)]
          exact True.intro
      · rw [if_pos (Or.inl h0), if_pos (Or.inr h0)]
        exact True.intro

/-- Claim C1 counterexample: for the zero vector passed twice as the same
buffer (same base address), the code's identity shortcut fires before the
degenerate check and the UDF returns the computed value 1.0, not the 0.0
the claim requires for a zero vector. -/
theorem cosine_self_zero_same_buffer :
    cosine_similarity zeroMem ⟨some 0, 4⟩ ⟨some 0, 4⟩ =
      CosOutcome.value CosVal.one ∧
    CosVal.hasVal CosVal.one 1 ∧ ¬ CosVal.hasVal CosVal.one 0 := by
  refine ⟨rfl, rfl, ?_⟩
  simp [CosVal.hasVal]

/-- Claim C1 (amended): for equal-valued operands of a common positive
length, the same buffer short-circuits to 1.0 unconditionally (so for a
zero vector the shortcut does change the outcome to 1.0); two distinct
buffers yield the value 1 when the squared magnitude is above the FLT_MIN
floor and the conventional 0.0 when it is at or below the floor (in
particular for a zero vector). -/
theorem cosine_self_cases (mem : Nat → ℚ) (p0 p1 b : Nat)
    (h4 : b % 4 = 0) (hn : 0 < b / 4)
    (heq : ∀ i, i < b / 4 → mem (p0 + i) = mem (p1 + i)) :
    (p0 = p1 → cosine_similarity mem ⟨some p0, b⟩ ⟨some p1, b⟩ =
        CosOutcome.value CosVal.one) ∧
    (p0 ≠ p1 → fltMin < sumSq mem p0 (b / 4) →
      ∃ v, cosine_similarity mem ⟨some p0, b⟩ ⟨some p1, b⟩ =
          CosOutcome.value v ∧ CosVal.hasVal v 1) ∧
    (p0 ≠ p1 → sumSq mem p0 (b / 4) ≤ fltMin →
      cosine_similarity mem ⟨some p0, b⟩ ⟨some p1, b⟩ =
          CosOutcome.value CosVal.zero ∧ CosVal.hasVal CosVal.zero 0) := by
  have hbase : cosine_similarity mem ⟨some p0, b⟩ ⟨some p1, b⟩ =
      CosOutcome.value (calculate_cosine mem p0 p1 (b / 4)) := by
    rw [cosine_similarity_some_eq, if_neg (by simp [h4]), Nat.min_self,
      if_neg (Nat.pos_iff_ne_zero.mp hn)]
  have hdot : dotAcc mem p0 p1 (b / 4) = sumSq mem p0 (b / 4) :=
    floatSum_congr _ _ _ (fun i hi => by rw [heq i hi])
  have hmb : dotAcc mem p1 p1 (b / 4) = sumSq mem p0 (b / 4) :=
    floatSum_congr _ _ _ (fun i hi => by rw [heq i hi])
  refine ⟨?_, ?_, ?_⟩
  · intro hpq
    rw [hbase, hpq]
    simp [calculate_cosine]
  · intro hpq hmag
    have hq : (0 : ℚ) < sumSq mem p0 (b / 4) := lt_trans fltMin_pos hmag
    refine ⟨CosVal.frac (dotAcc mem p0 p1 (b / 4)) (dotAcc mem p0 p0 (b / 4))
      (dotAcc mem p1 p1 (b / 4)), ?_, ?_⟩
    · rw [hbase, calculate_cosine_of_ne _ _ _ _ hpq, if_neg ?_]
      rintro (h | h)
      · exact absurd hmag (not_lt.mpr h)
      · rw [hmb] at h
        exact absurd hmag (not_lt.mpr h)
    · simp only [CosVal.hasVal]
      have hma : dotAcc mem p0 p0 (b / 4) = sumSq mem p0 (b / 4) := rfl
      rw [hdot, hmb, hma]
      have hr : (0 : ℝ) < ((sumSq mem p0 (b / 4) : ℚ) : ℝ) := by exact_mod_cast hq
      rw [Real.mul_self_sqrt (le_of_lt hr), div_self (ne_of_gt hr)]
  · intro hpq hmag
    have hmag2 : dotAcc mem p0 p0 (b / 4) ≤ fltMin := hmag
    refine ⟨?_, rfl⟩
    rw [hbase, calculate_cosine_of_ne _ _ _ _ hpq, if_pos (Or.inl hmag2)]

theorem cosine_self_cases_witness :
    (4 : Nat) % 4 = 0 ∧ 0 < 4 / 4 ∧ fltMin < sumSq threeMem 0 (4 / 4) ∧
    (∃ v, cosine_similarity threeMem ⟨some 0, 4⟩ ⟨some 5, 4⟩ =
        CosOutcome.value v ∧ CosVal.hasVal v 1) :=
  ⟨by decide, by decide, by rw [sumSq_threeMem]; norm_num [fltMin],
    (cosine_self_cases threeMem 0 5 4 (by decide) (by decide)
      (fun i hi => rfl)).2.1 (by decide)
      (by rw [sumSq_threeMem]; norm_num [fltMin])⟩

/-- Claim C5 counterexample: a degenerate (zero-magnitude) operand pair
passed as the same buffer with positive common length returns the
computed value 1.0, not the claimed 0.0: the identity shortcut precedes
the near-zero-floor check. -/
theorem cosine_degenerate_same_buffer :
    cosine_similarity zeroMem ⟨some 3, 8⟩ ⟨some 3, 8⟩ =
      CosOutcome.value CosVal.one ∧
    sumSq zeroMem 3 (min (8 / 4) (8 / 4)) ≤ fltMin ∧
    CosOutcome.value CosVal.one ≠ CosOutcome.value CosVal.zero ∧
    ¬ CosVal.hasVal CosVal.one 0 := by
  refine ⟨rfl, by rw [sumSq_zeroMem]; norm_num [fltMin], by decide, ?_⟩
  simp [CosVal.hasVal]

/-- Claim C5 (amended): for aligned, pointer-distinct operands with a
positive common length, a squared magnitude at or below the FLT_MIN floor
on either side yields the finite computed value 0.0 with neither the null
flag nor the error flag set. -/
theorem cosine_degenerate_zero (mem : Nat → ℚ) (p0 p1 b0 b1 : Nat)
    (h40 : b0 % 4 = 0) (h41 : b1 % 4 = 0) (hne : p0 ≠ p1)
    (hn : 0 < min (b0 / 4) (b1 / 4))
    (hdeg : sumSq mem p0 (min (b0 / 4) (b1 / 4)) ≤ fltMin ∨
        sumSq mem p1 (min (b0 / 4) (b1 / 4)) ≤ fltMin) :
    cosine_similarity mem ⟨some p0, b0⟩ ⟨some p1, b1⟩ =
      CosOutcome.value CosVal.zero ∧
    CosVal.hasVal CosVal.zero 0 ∧
    CosOutcome.value CosVal.zero ≠ CosOutcome.nullResult ∧
    CosOutcome.value CosVal.zero ≠ CosOutcome.alignError := by
  refine ⟨?_, rfl, by simp, by simp⟩
  simp only [sumSq] at hdeg
  rw [cosine_similarity_some_eq, if_neg (by simp [h40, h41]),
    if_neg (Nat.pos_iff_ne_zero.mp hn), calculate_cosine_of_ne _ _ _ _ hne,
    if_pos hdeg]

theorem cosine_degenerate_zero_witness :
    (4 : Nat) % 4 = 0 ∧ 0 < min (4 / 4) (4 / 4) ∧
    sumSq zeroMem 0 (min (4 / 4) (4 / 4)) ≤ fltMin ∧
    cosine_similarity zeroMem ⟨some 0, 4⟩ ⟨some 1, 4⟩ =
      CosOutcome.value CosVal.zero :=
  ⟨by decide, by decide, by rw [sumSq_zeroMem]; norm_num [fltMin],
    (cosine_degenerate_zero zeroMem 0 1 4 4 (by decide) (by decide)
      (by decide) (by decide)
      (Or.inl (by rw [sumSq_zeroMem]; norm_num [fltMin]))).1⟩

/-- Identity memory: component i holds the value i. -/
def idMem : Nat → ℚ := fun i => (i : ℚ)

/-- Memory agreeing with `idMem` on addresses up to 2 and diverging above:
exercises that elements past the common prefix do not matter. -/
def idMemTrunc : Nat → ℚ := fun i => if i ≤ 2 then (i : ℚ) else 99

/-- Claim C4: with aligned operands, the UDF result equals the result on
both operands truncated to the common prefix of `n = min(n1, n2)`
elements, and no memory content past either operand's first `n` elements
affects the result. -/
theorem cosine_common_len_eq (mem mem2 : Nat → ℚ) (p0 p1 b0 b1 : Nat)
    (h40 : b0 % 4 = 0) (h41 : b1 % 4 = 0)
    (hm0 : ∀ i, i < min (b0 / 4) (b1 / 4) → mem2 (p0 + i) = mem (p0 + i))
    (hm1 : ∀ i, i < min (b0 / 4) (b1 / 4) → mem2 (p1 + i) = mem (p1 + i)) :
    cosine_similarity mem ⟨some p0, b0⟩ ⟨some p1, b1⟩ =
      cosine_similarity mem ⟨some p0, 4 * min (b0 / 4) (b1 / 4)⟩
        ⟨some p1, 4 * min (b0 / 4) (b1 / 4)⟩ ∧
    cosine_similarity mem2 ⟨some p0, b0⟩ ⟨some p1, b1⟩ =
      cosine_similarity mem ⟨some p0, b0⟩ ⟨some p1, b1⟩ := by
  have hdiv : 4 * min (b0 / 4) (b1 / 4) / 4 = min (b0 / 4) (b1 / 4) :=
    Nat.mul_div_cancel_left _ (by norm_num)
  constructor
  · rw [cosine_similarity_some_eq, cosine_similarity_some_eq,
      if_neg (show ¬(b0 % 4 ≠ 0 ∨ b1 % 4 ≠ 0) by simp [h40, h41]),
      if_neg (show ¬(4 * min (b0 / 4) (b1 / 4) % 4 ≠ 0 ∨
        4 * min (b0 / 4) (b1 / 4) % 4 ≠ 0) by simp [Nat.mul_mod_right]),
      hdiv, Nat.min_self]
  · rw [cosine_similarity_some_eq, cosine_similarity_some_eq,
      if_neg (show ¬(b0 % 4 ≠ 0 ∨ b1 % 4 ≠ 0) by simp [h40, h41]),
      if_neg (show ¬(b0 % 4 ≠ 0 ∨ b1 % 4 ≠ 0) by simp [h40, h41])]
    by_cases hn : min (b0 / 4) (b1 / 4) = 0
    · rw [if_pos hn, if_pos hn]
    · rw [if_neg hn, if_neg hn,
        calculate_cosine_congr mem mem2 p0 p1 (min (b0 / 4) (b1 / 4)) hm0 hm1]

theorem cosine_common_len_eq_witness :
    (8 : Nat) % 4 = 0 ∧ (4 : Nat) % 4 = 0 ∧
    (cosine_similarity idMem ⟨some 0, 8⟩ ⟨some 2, 4⟩ =
      cosine_similarity idMem ⟨some 0, 4 * min (8 / 4) (4 / 4)⟩
        ⟨some 2, 4 * min (8 / 4) (4 / 4)⟩ ∧
    cosine_similarity idMemTrunc ⟨some 0, 8⟩ ⟨some 2, 4⟩ =
      cosine_similarity idMem ⟨some 0, 8⟩ ⟨some 2, 4⟩) :=
  ⟨by decide, by decide,
    cosine_common_len_eq idMem idMemTrunc 0 2 8 4 (by decide) (by decide)
      (fun i hi => by
        have h0 : i = 0 := Nat.lt_one_iff.mp hi
        subst h0; rfl)
      (fun i hi => by
        have h0 : i = 0 := Nat.lt_one_iff.mp hi
        subst h0; rfl)⟩

/-- Claim C6 counterexample: for `tokens == 0` the command is accepted
(early successful return) but its result is the empty list with 0
components, not a 384-component vector. -/
theorem compute_zero_tokens_not_dim :
    TclEmbedding_Compute true zeroMem 384 0 = ComputeResult.emptyList ∧
    outputIs ComputeResult.emptyList ([] : List ℝ) ∧
    ([] : List ℝ).length ≠ 384 :=
  ⟨rfl, rfl, by decide⟩

/-- Claim C6 (amended): for every accepted input with `tokens ≥ 1` (and a
successful inference), the returned embedding has exactly dim = 384
components, including when the pooled magnitude is vanishingly small;
for `tokens == 0` the result is the empty list instead. -/
theorem compute_dim_invariant (floats : Nat → ℚ) (tokens : Nat)
    (ht : 1 ≤ tokens) :
    ∃ p ns, TclEmbedding_Compute true floats 384 tokens =
        ComputeResult.embedding p ns ∧ p.length = 384 ∧
      ∀ out : List ℝ, outputIs (ComputeResult.embedding p ns) out →
        out.length = 384 := by
  have htz : tokens ≠ 0 := by omega
  have hlen : (pooledList floats 384 tokens).length = 384 := by
    simp [pooledList]
  refine ⟨pooledList floats 384 tokens, normSq floats 384 tokens, ?_, hlen, ?_⟩
  · simp [TclEmbedding_Compute, htz]
  · intro out hout
    simp only [outputIs] at hout
    rcases hout with ⟨_, h⟩ | ⟨_, h⟩ <;> rw [h, List.length_map, hlen]

theorem compute_dim_invariant_witness :
    1 ≤ 1 ∧
    ∃ p ns, TclEmbedding_Compute true zeroMem 384 1 =
        ComputeResult.embedding p ns ∧ p.length = 384 ∧
      ∀ out : List ℝ, outputIs (ComputeResult.embedding p ns) out →
        out.length = 384 :=
  ⟨le_refl 1, compute_dim_invariant zeroMem 1 (le_refl 1)⟩

/-- Claim C2: for `tokens ≥ 1` the Aggregator pools by summing, for each
feature index `i` below `dim`, the value at `[t, i]` over all token
positions `t` (exact accumulation, idealising the double accumulator) and
dividing by `tokens`; it accumulates the squared norm of the pooled
vector; and the emitted list divides every pooled component by
`sqrt(norm)`, with `1e-9` substituted as divisor when `sqrt(norm)` is
below `1e-9`.  In particular the 1-token, dim = 3 matrix [[3, 4, 0]]
yields [0.6, 0.8, 0.0]. -/
theorem compute_pooling_spec (floats : Nat → ℚ) (dim tokens : Nat)
    (ht : 1 ≤ tokens) :
    (∃ p ns, TclEmbedding_Compute true floats dim tokens =
        ComputeResult.embedding p ns ∧
      p = (List.range dim).map
          (fun i => floatSum (fun t => floats (t * dim + i)) tokens /
            (tokens : ℚ)) ∧
      ns = (p.map (fun x => x * x)).sum ∧
      ∀ out : List ℝ, outputIs (ComputeResult.embedding p ns) out →
        (Real.sqrt (ns : ℝ) < 1e-9 →
          out = p.map (fun x : ℚ => (x : ℝ) / 1e-9)) ∧
        (¬ Real.sqrt (ns : ℝ) < 1e-9 →
          out = p.map (fun x : ℚ => (x : ℝ) / Real.sqrt (ns : ℝ)))) ∧
    TclEmbedding_Compute true demoFloats 3 1 =
      ComputeResult.embedding [3, 4, 0] 25 ∧
    outputIs (ComputeResult.embedding [3, 4, 0] 25) [0.6, 0.8, 0] := by
  have htz : tokens ≠ 0 := by omega
  have hp : pooledList floats dim tokens =
      (List.range dim).map
        (fun i => floatSum (fun t => floats (t * dim + i)) tokens /
          (tokens : ℚ)) := by
    simp only [pooledList]
    have hfun : (fun i => sum_vec floats dim tokens i / (tokens : ℚ)) =
        (fun i => floatSum (fun t => floats (t * dim + i)) tokens /
          (tokens : ℚ)) := by
      funext i
      rw [sum_vec_eq_floatSum]
    rw [hfun]
  have hpl : pooledList demoFloats 3 1 = [3, 4, 0] := by
    simp [pooledList, List.range_succ, sum_vec, demoFloats]
  have hns : normSq demoFloats 3 1 = 25 := by
    rw [normSq, hpl]
    norm_num
  refine ⟨⟨pooledList floats dim tokens, normSq floats dim tokens,
      by simp [TclEmbedding_Compute, htz], hp, rfl, ?_⟩, ?_, ?_⟩
  · intro out hout
    simp only [outputIs] at hout
    constructor
    · intro hlt
      rcases hout with ⟨_, h⟩ | ⟨hge, _⟩
      · exact h
      · exact absurd hlt hge
    · intro hge
      rcases hout with ⟨hlt, _⟩ | ⟨_, h⟩
      · exact absurd hlt hge
      · exact h
  · simp [TclEmbedding_Compute, hpl, hns]
  · simp only [outputIs]
    right
    have h25 : Real.sqrt ((25 : ℚ) : ℝ) = 5 := by
      rw [show ((25 : ℚ) : ℝ) = (5 : ℝ) ^ 2 by norm_num]
      exact Real.sqrt_sq (by norm_num)
    rw [h25]
    constructor
    · norm_num
    · norm_num [List.map]

theorem compute_pooling_spec_witness :
    1 ≤ 1 ∧
    TclEmbedding_Compute true demoFloats 3 1 =
      ComputeResult.embedding [3, 4, 0] 25 ∧
    outputIs (ComputeResult.embedding [3, 4, 0] 25) [0.6, 0.8, 0] :=
  ⟨le_refl 1, (compute_pooling_spec demoFloats 3 1 (le_refl 1)).2⟩
